import Mathlib

/-!
Verification of the RSI pipeline in `interactive_rsi.py`.

The core function `calculate_rsi(data, period)` (lines 46-132) computes, over
the `Close` column of a pandas DataFrame:
  delta  = data['Close'].diff(1); delta.dropna(inplace=True)
  gain   = delta with negatives set to 0          (gain[gain < 0] = 0)
  loss   = delta with positives set to 0          (loss[loss > 0] = 0)
  avg_gain = gain.ewm(span=period, min_periods=period).mean()
  avg_loss = loss.abs().ewm(span=period, min_periods=period).mean()
  rs     = np.where(aligned_loss == 0, 100.0, aligned_gain / aligned_loss)
           re-indexed by aligned_loss.index
  rsi    = 100 - (100 / (1 + rs))
  data.loc[rsi.index, 'RSI'] = rsi     -- in-place write into the caller's frame
and `interpret_results` (lines 135-170) classifies the last RSI value.

Embedding choices:
  * IEEE doubles are modelled as exact rationals (ℚ); NaN as `Option.none`.
  * A pandas Series is a list of (row label, value) pairs; the row labels of
    the close column are 0,1,2,... in order, and every pipeline stage carries
    the labels of its input rows, exactly as pandas index alignment does.
  * `Series.ewm(span=s, min_periods=p).mean()` with the pandas defaults
    (`adjust=True`) is the weighted average with weights (1-alpha)^i over the
    cumulative history, alpha = 2/(s+1), masked to NaN while fewer than `p`
    observations have accumulated; pandas raises ValueError when span < 1,
    modelled by the `Except` error path.
  * `data.loc[rsi.index, 'RSI'] = rsi` writes the computed values into the
    caller's frame at the matching row labels, creating the column (filled
    with NaN elsewhere) when it does not exist.
-/

namespace InteractiveRsi

/-- A pandas Series of floats: (row label, value) pairs in index order. -/
abbrev Series := List (ℕ × ℚ)

/-- A pandas Series of floats that may hold NaN entries. -/
abbrev OptSeries := List (ℕ × Option ℚ)

/-- Attach consecutive row labels starting at `k` to a list of values. -/
def idxFrom (k : ℕ) : List α → List (ℕ × α)
  | [] => []
  | x :: xs => (k, x) :: idxFrom (k + 1) xs

/-- The values of a labelled series, in index order (`.values`). -/
def vals (s : List (ℕ × α)) : List α := s.map Prod.snd

/-- The row labels of a labelled series, in order (`.index`). -/
def labels (s : List (ℕ × α)) : List ℕ := s.map Prod.fst

/-- Tail of `Series.diff(1)`: each value minus its predecessor. -/
def diffAux (prev : ℚ) : Series → OptSeries
  | [] => []
  | (i, x) :: xs => (i, some (x - prev)) :: diffAux x xs

/-- `Series.diff(1)`: first entry NaN, then successive differences. -/
def diff1 : Series → OptSeries
  | [] => []
  | (i, x) :: xs => (i, none) :: diffAux x xs

/-- `Series.dropna()`: keep the non-NaN entries with their labels. -/
def dropna (s : OptSeries) : Series :=
  s.filterMap fun p => p.2.map fun v => (p.1, v)

/-- Elementwise map on the values of a series, labels kept. -/
def mapVals (f : ℚ → ℚ) (s : Series) : Series :=
  s.map fun p => (p.1, f p.2)

/-- The running weighted sums of `ewm(...).mean()` with `adjust=True`:
at each entry the numerator is `x + w * num` and the denominator
`1 + w * den`, where `num`/`den` accumulate the previous weighted sums. -/
def ewmaAux (w : ℚ) : ℚ → ℚ → Series → Series
  | _, _, [] => []
  | num, den, (i, x) :: xs =>
      (i, (x + w * num) / (1 + w * den)) :: ewmaAux w (x + w * num) (1 + w * den) xs

/-- The `min_periods` masking: the first `m` entries become NaN. -/
def mask : ℕ → Series → OptSeries
  | 0, s => s.map fun p => (p.1, some p.2)
  | _ + 1, [] => []
  | m + 1, (i, _) :: xs => (i, (none : Option ℚ)) :: mask m xs

/-- The decay factor of `ewm(span=s)`: 1 - alpha with alpha = 2/(s+1). -/
def ewmWeight (span : ℤ) : ℚ := 1 - 2 / ((span : ℚ) + 1)

/-- `Series.ewm(span, min_periods).mean()` without the span validation. -/
def ewmRaw (span minPeriods : ℤ) (s : Series) : OptSeries :=
  mask (minPeriods - 1).toNat (ewmaAux (ewmWeight span) 0 0 s)

/-- The hard failures of the pipeline.  `invalidParameter` models the
ValueError pandas raises from `ewm(span=period)` when `period < 1`. -/
inductive RsiError
  | invalidParameter
deriving DecidableEq, Repr

/-- `Series.ewm(span, min_periods).mean()`: pandas validates `span >= 1`. -/
def ewm (span minPeriods : ℤ) (s : Series) : Except RsiError OptSeries :=
  if span < 1 then .error .invalidParameter else .ok (ewmRaw span minPeriods s)

/-- The DataFrame as the pipeline sees it: a `Close` column (row labels
0,1,2,... implicit) and an `RSI` column that may be absent. -/
structure DataFrame where
  close : List ℚ
  rsi : Option (List (Option ℚ))
deriving DecidableEq, Repr

/-- `np.where(l == 0, 100.0, g / l)` on the raw value arrays. -/
def npWhereDiv (g l : List ℚ) : List ℚ :=
  List.zipWith (fun gv lv => if lv = 0 then 100 else gv / lv) g l

/-- Label lookup in a series (`.loc` row indexing by label). -/
def lookupIdx (i : ℕ) : Series → Option ℚ
  | [] => none
  | p :: xs => if p.1 = i then some p.2 else lookupIdx i xs

/-- `data.loc[s.index, 'RSI'] = s`: rows whose label occurs in `s` receive
its value; other rows keep the existing RSI entry, or NaN when the column
is first created. -/
def locAssign (df : DataFrame) (s : Series) : DataFrame :=
  { close := df.close
    rsi := some ((List.range df.close.length).map fun i =>
      match lookupIdx i s with
      | some v => some v
      | none => (df.rsi.getD (List.replicate df.close.length none)).getD i none) }

/-- `calculate_rsi` (lines 46-132), on the close column with labels
0,...,N-1.  The printing and the `avg_comparison` table built only for
display are omitted; the returned frame is the numeric result. -/
def calculate_rsi (data : DataFrame) (period : ℤ) : Except RsiError DataFrame := do
  let delta := dropna (diff1 (idxFrom 0 data.close))
  let gain := mapVals (fun x => if x < 0 then 0 else x) delta
  let loss := mapVals (fun x => if 0 < x then 0 else x) delta
  let avg_gain ← ewm period period gain
  let avg_loss ← ewm period period (mapVals abs loss)
  let aligned_gain := dropna avg_gain
  let aligned_loss := dropna avg_loss
  let rs : Series := (labels aligned_loss).zip
    (npWhereDiv (vals aligned_gain) (vals aligned_loss))
  let rsi := mapVals (fun r => 100 - 100 / (1 + r)) rs
  return locAssign data rsi

/-- Stage view: the delta series after `diff(1)` and `dropna()`. -/
def deltaSeries (data : DataFrame) : Series :=
  dropna (diff1 (idxFrom 0 data.close))

/-- Stage view: the gain series (`gain[gain < 0] = 0`). -/
def gainSeries (data : DataFrame) : Series :=
  mapVals (fun x => if x < 0 then 0 else x) (deltaSeries data)

/-- Stage view: the loss series (`loss[loss > 0] = 0`), sign preserved. -/
def lossSeries (data : DataFrame) : Series :=
  mapVals (fun x => if 0 < x then 0 else x) (deltaSeries data)

/-- Stage view: `avg_gain`, for an already validated period. -/
def avgGainSeries (data : DataFrame) (period : ℤ) : OptSeries :=
  ewmRaw period period (gainSeries data)

/-- Stage view: `avg_loss = loss.abs().ewm(...).mean()`. -/
def avgLossSeries (data : DataFrame) (period : ℤ) : OptSeries :=
  ewmRaw period period (mapVals abs (lossSeries data))

/-- Stage view: `aligned_gain = avg_gain.dropna()`. -/
def alignedGain (data : DataFrame) (period : ℤ) : Series :=
  dropna (avgGainSeries data period)

/-- Stage view: `aligned_loss = avg_loss.dropna()`. -/
def alignedLoss (data : DataFrame) (period : ℤ) : Series :=
  dropna (avgLossSeries data period)

/-- Stage view: the RS series, `np.where` values re-indexed by
`aligned_loss.index`. -/
def rsSeries (data : DataFrame) (period : ℤ) : Series :=
  (labels (alignedLoss data period)).zip
    (npWhereDiv (vals (alignedGain data period)) (vals (alignedLoss data period)))

/-- Stage view: the RSI series, `100 - (100 / (1 + rs))`. -/
def rsiSeries (data : DataFrame) (period : ℤ) : Series :=
  mapVals (fun r => 100 - 100 / (1 + r)) (rsSeries data period)

/-- The four signal bands of `interpret_results`. -/
inductive SignalBand
  | overbought
  | oversold
  | neutral
  | undetermined
deriving DecidableEq, Repr

/-- The branch structure of `interpret_results` (lines 156-168): NaN first,
then strict `> 70`, then strict `< 30`, else neutral. -/
def classify : Option ℚ → SignalBand
  | none => .undetermined
  | some x => if 70 < x then .overbought else if x < 30 then .oversold else .neutral

/-- `data['RSI'].iloc[-1]`: the last entry of the RSI column.  (On an empty
frame `iloc[-1]` raises in pandas, so this is used only on nonempty frames.) -/
def lastRsi (df : DataFrame) : Option ℚ :=
  ((df.rsi.getD []).getLast?).join

/-- The caller's table after `calculate_rsi(data, period)` returns: line 128
(`data.loc[rsi.index, 'RSI'] = rsi`) writes into the caller's frame in place,
and the function returns that same frame, so on success the caller's table
is exactly the returned value; when the ValueError fires inside `ewm`,
nothing has been written yet and the table is untouched. -/
def callerTableAfter (data : DataFrame) (period : ℤ) : DataFrame :=
  match calculate_rsi data period with
  | .ok out => out
  | .error _ => data

/-- Weighted sum with geometrically decaying weights: for a list
`[x0, x1, ..., xm]` this is `x0 + w*x1 + w^2*x2 + ... + w^m*xm`. -/
def wsum (w : ℚ) : List ℚ → ℚ
  | [] => 0
  | x :: xs => x + w * wsum w xs

/-- Specification-side smoother, written from the words of spec §4.3: the
output at position `k` is the exponentially weighted moving average of the
cumulative history `xs[0..k]` (not a sliding window), where observation
`xs[k-i]` carries relative weight `(1 - alpha)^i` with
`alpha = 2/(period+1)` (the standard EWMA-span convention), normalised by
the total weight. -/
def specSmootherAt (period : ℤ) (xs : List ℚ) (k : ℕ) : ℚ :=
  wsum (1 - 2 / ((period : ℚ) + 1)) ((xs.take (k + 1)).reverse) /
    wsum (1 - 2 / ((period : ℚ) + 1)) (List.replicate (k + 1) 1)

instance {ε α : Type} [DecidableEq ε] [DecidableEq α] : DecidableEq (Except ε α) :=
  fun x y =>
    match x, y with
    | .ok a, .ok b =>
        if h : a = b then .isTrue (congrArg Except.ok h)
        else .isFalse fun hh => h (Except.ok.inj hh)
    | .error a, .error b =>
        if h : a = b then .isTrue (congrArg Except.error h)
        else .isFalse fun hh => h (Except.error.inj hh)
    | .ok _, .error _ => .isFalse fun hh => Except.noConfusion hh
    | .error _, .ok _ => .isFalse fun hh => Except.noConfusion hh

/-- Reduction of `do`-bind on a success value. -/
theorem exceptBind_ok (a : α) (f : α → Except RsiError β) :
    (Except.ok a : Except RsiError α) >>= f = f a := rfl

/-- Reduction of `do`-bind on an error value. -/
theorem exceptBind_error (e : RsiError) (f : α → Except RsiError β) :
    (Except.error e : Except RsiError α) >>= f = Except.error e := rfl

/-- Unfolding `calculate_rsi` for a validated period: the caller's frame is
augmented with the RSI column computed by the stage functions. -/
theorem calculate_rsi_ok (data : DataFrame) (period : ℤ) (hp : 1 ≤ period) :
    calculate_rsi data period = .ok (locAssign data (rsiSeries data period)) := by
  have h : ¬ period < 1 := by omega
  simp only [calculate_rsi, ewm, if_neg h, exceptBind_ok, rsiSeries, rsSeries,
    alignedGain, alignedLoss, avgGainSeries, avgLossSeries, gainSeries,
    lossSeries, deltaSeries]
  rfl

/-- `calculate_rsi` only fails on the span validation, so an `ok` result
forces a valid period. -/
theorem period_pos_of_ok (data : DataFrame) (period : ℤ) (out : DataFrame)
    (hok : calculate_rsi data period = .ok out) : 1 ≤ period := by
  by_contra h
  have h1 : period < 1 := by omega
  simp only [calculate_rsi, ewm, if_pos h1, exceptBind_error] at hok
  exact Except.noConfusion hok

theorem length_idxFrom (k : ℕ) (l : List α) : (idxFrom k l).length = l.length := by
  induction l generalizing k with
  | nil => rfl
  | cons x xs ih => simp [idxFrom, ih]

theorem length_mapVals (f : ℚ → ℚ) (s : Series) :
    (mapVals f s).length = s.length := by
  simp [mapVals]

theorem length_vals (s : List (ℕ × α)) : (vals s).length = s.length := by
  simp [vals]

theorem length_labels (s : List (ℕ × α)) : (labels s).length = s.length := by
  simp [labels]

theorem length_ewmaAux (w : ℚ) (num den : ℚ) (s : Series) :
    (ewmaAux w num den s).length = s.length := by
  induction s generalizing num den with
  | nil => rfl
  | cons p xs ih => obtain ⟨i, x⟩ := p; simp [ewmaAux, ih]

theorem length_mask (m : ℕ) (s : Series) : (mask m s).length = s.length := by
  induction s generalizing m with
  | nil => cases m <;> rfl
  | cons p xs ih =>
      obtain ⟨i, x⟩ := p
      cases m with
      | zero => simp [mask]
      | succ m => simp [mask, ih]

theorem dropna_nil : dropna [] = [] := rfl

theorem dropna_cons_none (i : ℕ) (s : OptSeries) :
    dropna ((i, (none : Option ℚ)) :: s) = dropna s := rfl

theorem dropna_cons_some (i : ℕ) (v : ℚ) (s : OptSeries) :
    dropna ((i, some v) :: s) = (i, v) :: dropna s := rfl

theorem mask_nil (m : ℕ) : mask m [] = [] := by cases m <;> rfl

theorem mask_cons_succ (m : ℕ) (i : ℕ) (x : ℚ) (s : Series) :
    mask (m + 1) ((i, x) :: s) = (i, (none : Option ℚ)) :: mask m s := rfl

theorem dropna_mask_zero (s : Series) : dropna (mask 0 s) = s := by
  induction s with
  | nil => rfl
  | cons p xs ih =>
      obtain ⟨i, x⟩ := p
      show dropna ((i, some x) :: mask 0 xs) = (i, x) :: xs
      rw [dropna_cons_some, ih]

theorem length_dropna_mask (m : ℕ) (s : Series) :
    (dropna (mask m s)).length = s.length - m := by
  induction s generalizing m with
  | nil => rw [mask_nil, dropna_nil]; simp
  | cons p xs ih =>
      obtain ⟨i, x⟩ := p
      cases m with
      | zero => rw [dropna_mask_zero]; simp
      | succ m =>
          rw [mask_cons_succ, dropna_cons_none, ih m]
          simp [Nat.succ_sub_succ]

theorem length_alignedGain (data : DataFrame) (period : ℤ) :
    (alignedGain data period).length =
      (deltaSeries data).length - (period - 1).toNat := by
  simp [alignedGain, avgGainSeries, ewmRaw, length_dropna_mask, length_ewmaAux,
    gainSeries, length_mapVals]

theorem length_alignedLoss (data : DataFrame) (period : ℤ) :
    (alignedLoss data period).length =
      (deltaSeries data).length - (period - 1).toNat := by
  simp [alignedLoss, avgLossSeries, ewmRaw, length_dropna_mask, length_ewmaAux,
    lossSeries, length_mapVals]

theorem length_aligned_eq (data : DataFrame) (period : ℤ) :
    (alignedGain data period).length = (alignedLoss data period).length := by
  rw [length_alignedGain, length_alignedLoss]

theorem length_npWhereDiv (g l : List ℚ) :
    (npWhereDiv g l).length = min g.length l.length := by
  simp [npWhereDiv]

theorem length_rsSeries (data : DataFrame) (period : ℤ) :
    (rsSeries data period).length = (alignedLoss data period).length := by
  simp [rsSeries, length_npWhereDiv, length_labels, length_vals,
    length_aligned_eq data period]

theorem length_rsiSeries (data : DataFrame) (period : ℤ) :
    (rsiSeries data period).length = (alignedLoss data period).length := by
  rw [rsiSeries, length_mapVals, length_rsSeries]

theorem vals_mapVals (f : ℚ → ℚ) (s : Series) :
    vals (mapVals f s) = (vals s).map f := by
  simp [vals, mapVals, Function.comp]

theorem vals_rsSeries (data : DataFrame) (period : ℤ) :
    vals (rsSeries data period) =
      npWhereDiv (vals (alignedGain data period)) (vals (alignedLoss data period)) := by
  apply List.map_snd_zip
  simp [length_npWhereDiv, length_labels, length_vals, length_aligned_eq data period]

theorem mem_vals (s : List (ℕ × α)) (v : α) : v ∈ vals s ↔ ∃ p ∈ s, p.2 = v := by
  simp [vals]

theorem mem_dropna (p : ℕ × ℚ) (s : OptSeries) (h : p ∈ dropna s) :
    (p.1, some p.2) ∈ s := by
  simp only [dropna, List.mem_filterMap] at h
  obtain ⟨⟨i, o⟩, ha, hfa⟩ := h
  cases o with
  | none => simp at hfa
  | some v =>
      have hfa2 : ((i, v) : ℕ × ℚ) = p := by simpa using hfa
      rw [← hfa2]
      exact ha

theorem mem_mask (m : ℕ) (s : Series) (i : ℕ) (v : ℚ)
    (h : (i, some v) ∈ mask m s) : (i, v) ∈ s := by
  induction s generalizing m with
  | nil => rw [mask_nil] at h; cases h
  | cons p xs ih =>
      obtain ⟨j, x⟩ := p
      cases m with
      | zero =>
          simp only [mask, List.mem_map, Prod.mk.injEq, Option.some.injEq] at h
          obtain ⟨⟨j2, x2⟩, ha, h1, h2⟩ := h
          rw [← h1, ← h2]
          exact ha
      | succ m =>
          rw [mask_cons_succ] at h
          rcases List.mem_cons.mp h with h1 | h1
          · simp at h1
          · exact List.mem_cons_of_mem _ (ih m h1)

theorem ewmaAux_nonneg (w : ℚ) (hw : 0 ≤ w) :
    ∀ s : Series, (∀ p ∈ s, 0 ≤ p.2) →
      ∀ num den : ℚ, 0 ≤ num → 0 ≤ den → ∀ p ∈ ewmaAux w num den s, 0 ≤ p.2 := by
  intro s
  induction s with
  | nil => intro _ num den _ _ p hp; simp [ewmaAux] at hp
  | cons q xs ih =>
      obtain ⟨i, x⟩ := q
      intro hs num den hnum hden p hp
      have hx : 0 ≤ x := hs (i, x) (List.mem_cons_self _ _)
      have hxs : ∀ r ∈ xs, 0 ≤ r.2 := fun r hr => hs r (List.mem_cons_of_mem _ hr)
      have hnum2 : 0 ≤ x + w * num := add_nonneg hx (mul_nonneg hw hnum)
      have hden2 : (0 : ℚ) < 1 + w * den := by
        have := mul_nonneg hw hden; linarith
      rw [show ewmaAux w num den ((i, x) :: xs) =
        (i, (x + w * num) / (1 + w * den)) ::
          ewmaAux w (x + w * num) (1 + w * den) xs from rfl] at hp
      rcases List.mem_cons.mp hp with h1 | h1
      · rw [h1]
        exact div_nonneg hnum2 hden2.le
      · exact ih hxs (x + w * num) (1 + w * den) hnum2 hden2.le p h1

theorem ewmWeight_nonneg (span : ℤ) (hp : 1 ≤ span) : 0 ≤ ewmWeight span := by
  unfold ewmWeight
  have h1 : (1 : ℚ) ≤ (span : ℚ) := by exact_mod_cast hp
  have h2 : (0 : ℚ) < (span : ℚ) + 1 := by linarith
  have h3 : 2 / ((span : ℚ) + 1) ≤ 1 := by rw [div_le_one h2]; linarith
  linarith

theorem gainSeries_nonneg (data : DataFrame) : ∀ p ∈ gainSeries data, 0 ≤ p.2 := by
  intro p hp
  simp only [gainSeries, mapVals, List.mem_map] at hp
  obtain ⟨q, _, he⟩ := hp
  rw [← he]
  dsimp only
  split_ifs with h
  · exact le_refl 0
  · exact le_of_not_lt h

theorem absLossSeries_nonneg (data : DataFrame) :
    ∀ p ∈ mapVals abs (lossSeries data), 0 ≤ p.2 := by
  intro p hp
  simp only [mapVals, List.mem_map] at hp
  obtain ⟨q, _, he⟩ := hp
  rw [← he]
  exact abs_nonneg q.2

theorem alignedGain_nonneg (data : DataFrame) (period : ℤ) (hp : 1 ≤ period) :
    ∀ q ∈ alignedGain data period, 0 ≤ q.2 := by
  intro q hq
  have h1 := mem_dropna q _ hq
  have h2 := mem_mask _ _ _ _ h1
  exact ewmaAux_nonneg _ (ewmWeight_nonneg period hp) _ (gainSeries_nonneg data)
    0 0 le_rfl le_rfl _ h2

theorem alignedLoss_nonneg (data : DataFrame) (period : ℤ) (hp : 1 ≤ period) :
    ∀ q ∈ alignedLoss data period, 0 ≤ q.2 := by
  intro q hq
  have h1 := mem_dropna q _ hq
  have h2 := mem_mask _ _ _ _ h1
  exact ewmaAux_nonneg _ (ewmWeight_nonneg period hp) _ (absLossSeries_nonneg data)
    0 0 le_rfl le_rfl _ h2

theorem mem_zipWith {f : ℚ → ℚ → ℚ} {l1 l2 : List ℚ} {b : ℚ}
    (h : b ∈ List.zipWith f l1 l2) : ∃ x ∈ l1, ∃ y ∈ l2, b = f x y := by
  induction l1 generalizing l2 with
  | nil => simp at h
  | cons a as ih =>
      cases l2 with
      | nil => simp at h
      | cons c cs =>
          rw [List.zipWith_cons_cons] at h
          rcases List.mem_cons.mp h with h1 | h1
          · exact ⟨a, List.mem_cons_self _ _, c, List.mem_cons_self _ _, h1⟩
          · obtain ⟨x, hx, y, hy, he⟩ := ih h1
            exact ⟨x, List.mem_cons_of_mem _ hx, y, List.mem_cons_of_mem _ hy, he⟩

theorem rs_nonneg (data : DataFrame) (period : ℤ) (hp : 1 ≤ period) :
    ∀ r ∈ vals (rsSeries data period), 0 ≤ r := by
  intro r hr
  rw [vals_rsSeries] at hr
  simp only [npWhereDiv] at hr
  obtain ⟨g, hg, l, hl, he⟩ := mem_zipWith hr
  rw [he]
  split_ifs with h0
  · norm_num
  · obtain ⟨pg, hpg, hge⟩ := (mem_vals _ _).mp hg
    obtain ⟨pl, hpl, hle⟩ := (mem_vals _ _).mp hl
    have hgn : 0 ≤ g := hge ▸ alignedGain_nonneg data period hp pg hpg
    have hln : 0 ≤ l := hle ▸ alignedLoss_nonneg data period hp pl hpl
    exact div_nonneg hgn hln

theorem rsi_formula_range (r : ℚ) (hr : 0 ≤ r) :
    0 ≤ 100 - 100 / (1 + r) ∧ 100 - 100 / (1 + r) ≤ 100 := by
  have h1 : (0 : ℚ) < 1 + r := by linarith
  have h2 : 100 / (1 + r) ≤ 100 := by rw [div_le_iff₀ h1]; nlinarith
  have h3 : (0 : ℚ) < 100 / (1 + r) := by positivity
  constructor <;> linarith

theorem lookupIdx_mem (i : ℕ) (s : Series) (v : ℚ)
    (h : lookupIdx i s = some v) : (i, v) ∈ s := by
  induction s with
  | nil => simp [lookupIdx] at h
  | cons p xs ih =>
      obtain ⟨j, x⟩ := p
      rw [show lookupIdx i ((j, x) :: xs) =
        if j = i then some x else lookupIdx i xs from rfl] at h
      split_ifs at h with h1
      · have h2 := Option.some.inj h
        rw [← h1, ← h2]
        exact List.mem_cons_self _ _
      · exact List.mem_cons_of_mem _ (ih h)

theorem getD_replicate_none (n i : ℕ) :
    (List.replicate n (none : Option ℚ)).getD i none = none := by
  rcases lt_or_le i n with h | h
  · rw [List.getD_eq_getElem _ _ (by simpa using h)]
    simp
  · rw [List.getD_eq_default _ _ (by simpa using h)]

/-- C3: the classifier is a pure total function on NaN and the rationals:
NaN maps to UNDETERMINED; OVERBOUGHT exactly when the value is strictly
above 70; OVERSOLD exactly when strictly below 30; NEUTRAL exactly on the
closed band [30, 70], so both 70 and 30 are NEUTRAL. -/
theorem claim_C3_classifier :
    classify none = .undetermined ∧
    (∀ x : ℚ, classify (some x) = .overbought ↔ 70 < x) ∧
    (∀ x : ℚ, classify (some x) = .oversold ↔ x < 30) ∧
    (∀ x : ℚ, classify (some x) = .neutral ↔ 30 ≤ x ∧ x ≤ 70) ∧
    classify (some 70) = .neutral ∧ classify (some 30) = .neutral := by
  refine ⟨rfl, ?_, ?_, ?_, ?_, ?_⟩
  · intro x
    simp only [classify]
    split_ifs with h1 h2
    · exact iff_of_true rfl h1
    · exact iff_of_false (by decide) h1
    · exact iff_of_false (by decide) h1
  · intro x
    simp only [classify]
    split_ifs with h1 h2
    · exact iff_of_false (by decide)
        (fun hc => absurd h1 (by linarith))
    · exact iff_of_true rfl h2
    · exact iff_of_false (by decide) h2
  · intro x
    simp only [classify]
    split_ifs with h1 h2
    · exact iff_of_false (by decide)
        (fun hc => absurd h1 (by linarith [hc.2]))
    · exact iff_of_false (by decide)
        (fun hc => absurd h2 (by linarith [hc.1]))
    · exact iff_of_true rfl ⟨by linarith, by linarith⟩
  · norm_num [classify]
  · norm_num [classify]

/-- C1: at every aligned position, when the average loss is 0 the RS value
is the saturation constant 100 regardless of the average gain, and the
resulting RSI value is 100 - 100/101 = 10000/101, not exactly 100;
otherwise RS is the quotient of average gain by average loss. -/
theorem claim_C1_rs_convention (data : DataFrame) (period : ℤ) (t : ℕ)
    (ht : t < (alignedLoss data period).length) :
    ((vals (alignedLoss data period)).getD t 0 = 0 →
        (vals (rsSeries data period)).getD t 0 = 100 ∧
        (vals (rsiSeries data period)).getD t 0 = 10000 / 101 ∧
        (vals (rsiSeries data period)).getD t 0 ≠ 100) ∧
    ((vals (alignedLoss data period)).getD t 0 ≠ 0 →
        (vals (rsSeries data period)).getD t 0 =
          (vals (alignedGain data period)).getD t 0 /
            (vals (alignedLoss data period)).getD t 0) := by
  have htG : t < (vals (alignedGain data period)).length := by
    rw [length_vals, length_aligned_eq]; exact ht
  have htL : t < (vals (alignedLoss data period)).length := by
    rw [length_vals]; exact ht
  have htRS : t < (vals (rsSeries data period)).length := by
    rw [length_vals, length_rsSeries]; exact ht
  have htRSI : t < (vals (rsiSeries data period)).length := by
    rw [length_vals, length_rsiSeries]; exact ht
  have hrs : (vals (rsSeries data period)).getD t 0 =
      if (vals (alignedLoss data period)).getD t 0 = 0 then (100 : ℚ)
      else (vals (alignedGain data period)).getD t 0 /
        (vals (alignedLoss data period)).getD t 0 := by
    rw [List.getD_eq_getElem _ _ htRS, List.getD_eq_getElem _ _ htG,
      List.getD_eq_getElem _ _ htL]
    simp only [vals_rsSeries, npWhereDiv, List.getElem_zipWith]
  have hrsi : (vals (rsiSeries data period)).getD t 0 =
      100 - 100 / (1 + (vals (rsSeries data period)).getD t 0) := by
    rw [List.getD_eq_getElem _ _ htRSI, List.getD_eq_getElem _ _ htRS]
    simp only [rsiSeries, vals_mapVals, List.getElem_map]
  constructor
  · intro h0
    have hrs100 : (vals (rsSeries data period)).getD t 0 = 100 := by
      rw [hrs, if_pos h0]
    refine ⟨hrs100, ?_, ?_⟩
    · rw [hrsi, hrs100]; norm_num
    · rw [hrsi, hrs100]; norm_num
  · intro h0
    rw [hrs, if_neg h0]

/-- Witness for C1 on the concrete frame with closes [1, 2] and period 1:
the aligned average loss is 0 there, so RS saturates at 100 and RSI is
exactly 10000/101. -/
theorem claim_C1_witness :
    (vals (alignedLoss ⟨[1, 2], none⟩ 1)).getD 0 0 = 0 ∧
    (vals (rsSeries ⟨[1, 2], none⟩ 1)).getD 0 0 = 100 ∧
    (vals (rsiSeries ⟨[1, 2], none⟩ 1)).getD 0 0 = 10000 / 101 ∧
    (vals (rsiSeries ⟨[1, 2], none⟩ 1)).getD 0 0 ≠ 100 := by
  have ht : (0 : ℕ) < (alignedLoss ⟨[1, 2], none⟩ 1).length := by
    norm_num [alignedLoss, avgLossSeries, ewmRaw, ewmWeight, ewmaAux, mask,
      lossSeries, deltaSeries, mapVals, dropna_cons_some, dropna_cons_none,
      dropna_nil, diff1, diffAux, idxFrom]
  have h0 : (vals (alignedLoss ⟨[1, 2], none⟩ 1)).getD 0 0 = 0 := by
    norm_num [alignedLoss, avgLossSeries, ewmRaw, ewmWeight, ewmaAux, mask,
      lossSeries, deltaSeries, mapVals, dropna_cons_some, dropna_cons_none,
      dropna_nil, diff1, diffAux, idxFrom, vals]
  obtain ⟨h1, h2, h3⟩ := (claim_C1_rs_convention ⟨[1, 2], none⟩ 1 0 ht).1 h0
  exact ⟨h0, h1, h2, h3⟩

/-- C2: for every input price table and every period for which the
computation succeeds, RS is non-negative at every defined position
(gains and loss magnitudes are non-negative), and every defined entry
of the resulting RSI column lies in [0, 100]. -/
theorem claim_C2_rsi_range (data : DataFrame) (period : ℤ)
    (hfresh : data.rsi = none) (out : DataFrame) (col : List (Option ℚ))
    (hok : calculate_rsi data period = .ok out) (hcol : out.rsi = some col)
    (v : ℚ) (hv : some v ∈ col) :
    (∀ r ∈ vals (rsSeries data period), 0 ≤ r) ∧ 0 ≤ v ∧ v ≤ 100 := by
  have hp : 1 ≤ period := period_pos_of_ok data period out hok
  have hrs := rs_nonneg data period hp
  refine ⟨hrs, ?_⟩
  have hout : out = locAssign data (rsiSeries data period) := by
    have h := hok.symm.trans (calculate_rsi_ok data period hp)
    exact Except.ok.inj h
  subst hout
  rw [show (locAssign data (rsiSeries data period)).rsi =
      some ((List.range data.close.length).map fun i =>
        match lookupIdx i (rsiSeries data period) with
        | some w => some w
        | none => (data.rsi.getD
            (List.replicate data.close.length none)).getD i none) from rfl] at hcol
  have hcol2 := Option.some.inj hcol
  rw [← hcol2] at hv
  rw [List.mem_map] at hv
  obtain ⟨i, _, hfi⟩ := hv
  rw [hfresh] at hfi
  simp only [Option.getD] at hfi
  cases hl : lookupIdx i (rsiSeries data period) with
  | none =>
      rw [hl] at hfi
      simp only [getD_replicate_none] at hfi
      exact absurd hfi (by simp)
  | some v2 =>
      rw [hl] at hfi
      simp only [Option.some.injEq] at hfi
      subst hfi
      have hmem := lookupIdx_mem _ _ _ hl
      have hvv : v2 ∈ vals (rsiSeries data period) :=
        (mem_vals _ _).mpr ⟨_, hmem, rfl⟩
      rw [rsiSeries, vals_mapVals, List.mem_map] at hvv
      obtain ⟨r, hr, he⟩ := hvv
      rw [← he]
      exact rsi_formula_range r (hrs r hr)

/-- Witness for C2 on the closes [1, 2] with period 1: the single defined
RSI entry is 10000/101, which lies in [0, 100]. -/
theorem claim_C2_witness :
    calculate_rsi ⟨[1, 2], none⟩ 1 =
      .ok ⟨[1, 2], some [none, some (10000 / 101)]⟩ ∧
    0 ≤ (10000 / 101 : ℚ) ∧ (10000 / 101 : ℚ) ≤ 100 := by
  have hok : calculate_rsi ⟨[1, 2], none⟩ 1 =
      .ok ⟨[1, 2], some [none, some (10000 / 101)]⟩ := by
    norm_num [calculate_rsi, ewm, ewmRaw, ewmWeight, ewmaAux, mask, dropna,
      diff1, diffAux, idxFrom, mapVals, npWhereDiv, labels, vals, lookupIdx,
      locAssign, exceptBind_ok, List.range_succ]
  refine ⟨hok, ?_⟩
  exact (claim_C2_rsi_range ⟨[1, 2], none⟩ 1 rfl _ [none, some (10000 / 101)]
    hok rfl (10000 / 101) (by norm_num)).2

/-- C10: for every input table and every period at least 1, `calculate_rsi`
terminates normally with a result frame; the whole numeric chain is total
and undefined positions are NaN entries, never failures. -/
theorem claim_C10_totality (data : DataFrame) (period : ℤ) (hp : 1 ≤ period) :
    ∃ out, calculate_rsi data period = .ok out :=
  ⟨_, calculate_rsi_ok data period hp⟩

/-- Witness for C10 at a concrete three-row table and the default period. -/
theorem claim_C10_witness :
    (1 : ℤ) ≤ 14 ∧ ∃ out, calculate_rsi ⟨[1, 2, 3], none⟩ 14 = .ok out :=
  ⟨by norm_num, claim_C10_totality ⟨[1, 2, 3], none⟩ 14 (by norm_num)⟩

/-- C8: for every period below 1 the computation fails hard with the
invalid-parameter error (the ValueError raised by the `ewm` span
validation), rather than substituting a default. -/
theorem claim_C8_invalid_period (data : DataFrame) (period : ℤ)
    (hlt : period < 1) :
    calculate_rsi data period = .error .invalidParameter := by
  simp only [calculate_rsi, ewm, if_pos hlt, exceptBind_error]

/-- Witness for C8 at period 0. -/
theorem claim_C8_witness :
    (0 : ℤ) < 1 ∧ calculate_rsi ⟨[1, 2, 3], none⟩ 0 = .error .invalidParameter :=
  ⟨by norm_num, claim_C8_invalid_period ⟨[1, 2, 3], none⟩ 0 (by norm_num)⟩

/-- C7 counterexample: a single-row price table (N = 1 < 2) does not make
the pipeline raise any error: `calculate_rsi` succeeds and returns the
frame with an all-undefined RSI column.  No `InsufficientDataError` exists
anywhere in the code. -/
theorem claim_C7_counterexample :
    calculate_rsi ⟨[5], none⟩ 14 = .ok ⟨[5], some [none]⟩ := by
  norm_num [calculate_rsi, ewm, ewmRaw, ewmWeight, ewmaAux, mask, dropna,
    diff1, diffAux, idxFrom, mapVals, npWhereDiv, labels, vals, lookupIdx,
    locAssign, exceptBind_ok, List.range_succ]

theorem map_const_replicate {f : ℕ → Option ℚ} {c : Option ℚ} :
    ∀ l : List ℕ, (∀ i ∈ l, f i = c) → l.map f = List.replicate l.length c := by
  intro l
  induction l with
  | nil => intro _; rfl
  | cons a as ih =>
      intro h
      rw [List.map_cons, List.length_cons, List.replicate_succ,
        h a (List.mem_cons_self _ _), ih fun i hi => h i (List.mem_cons_of_mem _ hi)]

/-- C7 amended: for every price table with fewer than 2 rows and a valid
period, the Delta Engine yields an empty delta series and `calculate_rsi`
returns successfully with an entirely undefined RSI column; no error is
raised. -/
theorem claim_C7_short_series_ok (data : DataFrame) (period : ℤ)
    (hp : 1 ≤ period) (hlen : data.close.length < 2) (hfresh : data.rsi = none) :
    calculate_rsi data period =
      .ok ⟨data.close, some (List.replicate data.close.length none)⟩ := by
  have hdelta : deltaSeries data = [] := by
    rcases data with ⟨close, rsi⟩
    rcases close with _ | ⟨c, _ | ⟨c2, rest⟩⟩
    · rfl
    · rfl
    · exfalso; simp at hlen; omega
  have hrsi : rsiSeries data period = [] := by
    simp [rsiSeries, rsSeries, alignedGain, alignedLoss, avgGainSeries,
      avgLossSeries, ewmRaw, gainSeries, lossSeries, hdelta, mapVals,
      mask_nil, dropna_nil, labels, npWhereDiv, vals, ewmaAux]
  rw [calculate_rsi_ok data period hp, hrsi]
  have hcol : ∀ i ∈ List.range data.close.length,
      (match lookupIdx i ([] : Series) with
       | some w => some w
       | none => (data.rsi.getD
           (List.replicate data.close.length none)).getD i none) = (none : Option ℚ) := by
    intro i _
    rw [hfresh]
    simp only [lookupIdx, Option.getD]
    exact getD_replicate_none _ _
  simp only [locAssign]
  rw [map_const_replicate _ hcol, List.length_range]

/-- Witness for C7 amended, on the single-row table with close 5. -/
theorem claim_C7_witness :
    (1 : ℤ) ≤ 3 ∧ calculate_rsi ⟨[5], none⟩ 3 = .ok ⟨[5], some [none]⟩ := by
  refine ⟨by norm_num, ?_⟩
  have h := claim_C7_short_series_ok ⟨[5], none⟩ 3 (by norm_num) (by norm_num) rfl
  simpa using h

/-- C9 counterexample: line 128 writes the RSI column into the caller's
frame in place and returns that same frame, so after a successful call the
caller's table is no longer the table that was passed in: the computation
does not leave the caller's data unmodified. -/
theorem claim_C9_counterexample :
    callerTableAfter ⟨[1, 2], none⟩ 1 ≠ ⟨[1, 2], none⟩ := by
  have h : callerTableAfter ⟨[1, 2], none⟩ 1 =
      ⟨[1, 2], some [none, some (10000 / 101)]⟩ := by
    unfold callerTableAfter
    rw [show calculate_rsi ⟨[1, 2], none⟩ 1 =
        .ok ⟨[1, 2], some [none, some (10000 / 101)]⟩ from by
      norm_num [calculate_rsi, ewm, ewmRaw, ewmWeight, ewmaAux, mask, dropna,
        diff1, diffAux, idxFrom, mapVals, npWhereDiv, labels, vals, lookupIdx,
        locAssign, exceptBind_ok, List.range_succ]]
  rw [h]
  simp

/-- C9 amended: `calculate_rsi` mutates the caller's table in place (the
returned frame is the caller's frame, now carrying the RSI column) rather
than returning a fresh copy, but every pre-existing field is unchanged:
the close column of the caller's table after the call is exactly the close
column passed in, whether the call succeeds or fails. -/
theorem claim_C9_close_preserved (data : DataFrame) (period : ℤ) :
    (callerTableAfter data period).close = data.close := by
  cases h : calculate_rsi data period with
  | error e => unfold callerTableAfter; rw [h]
  | ok out =>
      unfold callerTableAfter
      rw [h]
      have hp := period_pos_of_ok data period out h
      have hout : out = locAssign data (rsiSeries data period) :=
        Except.ok.inj (h.symm.trans (calculate_rsi_ok data period hp))
      rw [hout]
      rfl

theorem wsum_append_single (w : ℚ) (l : List ℚ) (x : ℚ) :
    wsum w (l ++ [x]) = wsum w l + w ^ l.length * x := by
  induction l with
  | nil => simp [wsum]
  | cons a as ih =>
      rw [List.cons_append]
      rw [show wsum w (a :: (as ++ [x])) = a + w * wsum w (as ++ [x]) from rfl]
      rw [show wsum w (a :: as) = a + w * wsum w as from rfl]
      rw [ih, List.length_cons, pow_succ]
      ring

theorem wsum_replicate_one_succ (w : ℚ) (m : ℕ) :
    wsum w (List.replicate (m + 1) (1 : ℚ)) =
      wsum w (List.replicate m (1 : ℚ)) + w ^ m := by
  induction m with
  | zero => simp [wsum]
  | succ m ih =>
      rw [show List.replicate (m + 1 + 1) (1 : ℚ) = 1 :: List.replicate (m + 1) 1
        from List.replicate_succ ..]
      rw [show wsum w (1 :: List.replicate (m + 1) (1 : ℚ)) =
        1 + w * wsum w (List.replicate (m + 1) 1) from rfl]
      nth_rewrite 1 [ih]
      rw [show List.replicate (m + 1) (1 : ℚ) = 1 :: List.replicate m 1
        from List.replicate_succ ..]
      rw [show wsum w (1 :: List.replicate m (1 : ℚ)) =
        1 + w * wsum w (List.replicate m 1) from rfl]
      rw [pow_succ]
      ring

/-- Closed form of the `ewm` accumulator: with accumulators `num`/`den`
seeded, the value at position `k` is the weighted sum of the reversed
prefix of the values (most recent first, weights decaying by `w`) over
the corresponding total weight. -/
theorem ewmaAux_getD (w : ℚ) (s : Series) :
    ∀ (k : ℕ) (num den : ℚ), k < s.length →
      (ewmaAux w num den s).getD k (0, 0) =
        ((s.getD k (0, 0)).1,
          (wsum w (((vals s).take (k + 1)).reverse) + w ^ (k + 1) * num) /
            (wsum w (List.replicate (k + 1) 1) + w ^ (k + 1) * den)) := by
  induction s with
  | nil => intro k num den hk; simp at hk
  | cons p xs ih =>
      obtain ⟨i, x⟩ := p
      intro k num den hk
      cases k with
      | zero =>
          rw [show ewmaAux w num den ((i, x) :: xs) =
            (i, (x + w * num) / (1 + w * den)) ::
              ewmaAux w (x + w * num) (1 + w * den) xs from rfl]
          rw [List.getD_cons_zero, List.getD_cons_zero]
          rw [show vals ((i, x) :: xs) = x :: vals xs from rfl]
          rw [show (x :: vals xs).take 1 = [x] from rfl]
          rw [Prod.mk.injEq]
          refine ⟨rfl, ?_⟩
          simp [wsum]
      | succ k =>
          have hk2 : k < xs.length := by simpa using hk
          have hlen : ((vals xs).take (k + 1)).reverse.length = k + 1 := by
            rw [List.length_reverse, List.length_take, length_vals]
            omega
          have hnum : wsum w (((vals ((i, x) :: xs)).take (k + 1 + 1)).reverse) =
              wsum w (((vals xs).take (k + 1)).reverse) + w ^ (k + 1) * x := by
            rw [show vals ((i, x) :: xs) = x :: vals xs from rfl]
            rw [List.take_succ_cons, List.reverse_cons, wsum_append_single, hlen]
          rw [show ewmaAux w num den ((i, x) :: xs) =
            (i, (x + w * num) / (1 + w * den)) ::
              ewmaAux w (x + w * num) (1 + w * den) xs from rfl]
          rw [List.getD_cons_succ, ih k (x + w * num) (1 + w * den) hk2,
            List.getD_cons_succ, hnum, wsum_replicate_one_succ w (k + 1)]
          rw [Prod.mk.injEq]
          refine ⟨rfl, ?_⟩
          congr 1 <;> ring

/-- The `min_periods` mask leaves labels in place, hides the first `m`
values and wraps the remaining values in `some`. -/
theorem mask_getD (m : ℕ) (s : Series) :
    ∀ k : ℕ, k < s.length →
      (mask m s).getD k (0, none) =
        if k < m then ((s.getD k (0, 0)).1, (none : Option ℚ))
        else ((s.getD k (0, 0)).1, some (s.getD k (0, 0)).2) := by
  induction s generalizing m with
  | nil => intro k hk; simp at hk
  | cons p xs ih =>
      obtain ⟨i, x⟩ := p
      intro k hk
      cases m with
      | zero =>
          cases k with
          | zero => simp [mask]
          | succ k =>
              rw [show mask 0 ((i, x) :: xs) =
                (i, some x) :: mask 0 xs from rfl]
              rw [List.getD_cons_succ, List.getD_cons_succ]
              rw [ih 0 k (by simpa using hk)]
              simp
      | succ m =>
          cases k with
          | zero => rw [mask_cons_succ]; simp
          | succ k =>
              rw [mask_cons_succ, List.getD_cons_succ, List.getD_cons_succ]
              rw [ih m k (by simpa using hk)]
              by_cases hkm : k < m
              · rw [if_pos hkm, if_pos (by omega)]
              · rw [if_neg hkm, if_neg (by omega)]

/-- The smoother at a valid span: NaN while fewer than `span` observations
have accumulated, and from then on exactly the specification-side EWMA of
the cumulative history. -/
theorem ewmRaw_getD_spec (span : ℤ) (hsp : 1 ≤ span) (s : Series) (k : ℕ)
    (hk : k < s.length) :
    (k + 1 < span.toNat → ((ewmRaw span span s).getD k (0, none)).2 = none) ∧
    (span.toNat ≤ k + 1 →
      ((ewmRaw span span s).getD k (0, none)).2 =
        some (specSmootherAt span (vals s) k)) := by
  have hk1 : k < (ewmaAux (ewmWeight span) 0 0 s).length := by
    rw [length_ewmaAux]; exact hk
  constructor
  · intro hlt
    rw [ewmRaw, mask_getD _ _ k hk1, if_pos (by omega)]
  · intro hge
    rw [ewmRaw, mask_getD _ _ k hk1, if_neg (by omega)]
    rw [ewmaAux_getD (ewmWeight span) s k 0 0 hk]
    simp only [mul_zero, add_zero]
    rfl

/-- C5: the smoother is the cumulative exponentially weighted moving
average with span = period (decay 1 - 2/(period+1), i.e. most recent
weight 2/(period+1)), computed over the whole history from the start of
the series and masked for the first period-1 positions, applied
identically to the gain series and to the absolute value of the loss
series. -/
theorem claim_C5_smoother (data : DataFrame) (period : ℤ) (hp : 1 ≤ period)
    (k : ℕ) (hk : k < (gainSeries data).length) :
    (k + 1 < period.toNat →
        ((avgGainSeries data period).getD k (0, none)).2 = none ∧
        ((avgLossSeries data period).getD k (0, none)).2 = none) ∧
    (period.toNat ≤ k + 1 →
        ((avgGainSeries data period).getD k (0, none)).2 =
          some (specSmootherAt period (vals (gainSeries data)) k) ∧
        ((avgLossSeries data period).getD k (0, none)).2 =
          some (specSmootherAt period
            (vals (mapVals abs (lossSeries data))) k)) := by
  have hkL : k < (mapVals abs (lossSeries data)).length := by
    rw [length_mapVals, lossSeries, length_mapVals]
    rw [gainSeries, length_mapVals] at hk
    exact hk
  obtain ⟨hg1, hg2⟩ := ewmRaw_getD_spec period hp (gainSeries data) k hk
  obtain ⟨hl1, hl2⟩ := ewmRaw_getD_spec period hp
    (mapVals abs (lossSeries data)) k hkL
  exact ⟨fun h => ⟨hg1 h, hl1 h⟩, fun h => ⟨hg2 h, hl2 h⟩⟩

/-- Witness for C5 on closes [1, 3, 2, 6] with period 2, position 1. -/
theorem claim_C5_witness :
    (2 : ℤ).toNat ≤ 1 + 1 ∧
    ((avgGainSeries ⟨[1, 3, 2, 6], none⟩ 2).getD 1 (0, none)).2 =
      some (specSmootherAt 2 (vals (gainSeries ⟨[1, 3, 2, 6], none⟩)) 1) ∧
    ((avgLossSeries ⟨[1, 3, 2, 6], none⟩ 2).getD 1 (0, none)).2 =
      some (specSmootherAt 2
        (vals (mapVals abs (lossSeries ⟨[1, 3, 2, 6], none⟩))) 1) := by
  have hk : 1 < (gainSeries ⟨[1, 3, 2, 6], none⟩).length := by
    norm_num [gainSeries, mapVals, deltaSeries, dropna_cons_some,
      dropna_cons_none, dropna_nil, diff1, diffAux, idxFrom]
  have h := (claim_C5_smoother ⟨[1, 3, 2, 6], none⟩ 2 (by norm_num) 1 hk).2
    (by omega)
  exact ⟨by omega, h.1, h.2⟩

theorem idxFrom_replicate_succ (j m : ℕ) (a : α) :
    idxFrom j (List.replicate (m + 1) a) =
      (j, a) :: idxFrom (j + 1) (List.replicate m a) := by
  rw [List.replicate_succ]
  rfl

theorem dropna_diffAux_replicate (c : ℚ) :
    ∀ (m j : ℕ), dropna (diffAux c (idxFrom j (List.replicate m c))) =
      idxFrom j (List.replicate m 0) := by
  intro m
  induction m with
  | zero => intro j; rfl
  | succ m ih =>
      intro j
      rw [idxFrom_replicate_succ]
      rw [show diffAux c ((j, c) :: idxFrom (j + 1) (List.replicate m c)) =
        (j, some (c - c)) :: diffAux c (idxFrom (j + 1) (List.replicate m c))
        from rfl]
      rw [sub_self, dropna_cons_some, ih, idxFrom_replicate_succ]

theorem deltaSeries_replicate (c : ℚ) (n : ℕ) (hn : 1 ≤ n) :
    deltaSeries ⟨List.replicate n c, none⟩ =
      idxFrom 1 (List.replicate (n - 1) 0) := by
  obtain ⟨m, rfl⟩ : ∃ m, n = m + 1 := ⟨n - 1, by omega⟩
  show dropna (diff1 (idxFrom 0 (List.replicate (m + 1) c))) = _
  rw [idxFrom_replicate_succ]
  rw [show diff1 ((0, c) :: idxFrom 1 (List.replicate m c)) =
    (0, none) :: diffAux c (idxFrom 1 (List.replicate m c)) from rfl]
  rw [dropna_cons_none, dropna_diffAux_replicate]
  simp

theorem mapVals_idxFrom_replicate (f : ℚ → ℚ) (a : ℚ) :
    ∀ (m j : ℕ), mapVals f (idxFrom j (List.replicate m a)) =
      idxFrom j (List.replicate m (f a)) := by
  intro m
  induction m with
  | zero => intro j; rfl
  | succ m ih =>
      intro j
      rw [idxFrom_replicate_succ]
      rw [show mapVals f ((j, a) :: idxFrom (j + 1) (List.replicate m a)) =
        (j, f a) :: mapVals f (idxFrom (j + 1) (List.replicate m a)) from rfl]
      rw [ih, idxFrom_replicate_succ]

theorem ewmaAux_zero_replicate (w : ℚ) :
    ∀ (m j : ℕ) (den : ℚ),
      ewmaAux w 0 den (idxFrom j (List.replicate m (0 : ℚ))) =
        idxFrom j (List.replicate m 0) := by
  intro m
  induction m with
  | zero => intro j den; rfl
  | succ m ih =>
      intro j den
      rw [idxFrom_replicate_succ]
      rw [show ewmaAux w 0 den ((j, (0 : ℚ)) :: idxFrom (j + 1) (List.replicate m 0)) =
        (j, (0 + w * 0) / (1 + w * den)) ::
          ewmaAux w (0 + w * 0) (1 + w * den) (idxFrom (j + 1) (List.replicate m 0))
        from rfl]
      rw [show (0 : ℚ) + w * 0 = 0 by ring]
      rw [zero_div, ih]

theorem dropna_mask_idxFrom_replicate (a : ℚ) :
    ∀ (p m j : ℕ), dropna (mask p (idxFrom j (List.replicate m a))) =
      idxFrom (j + min p m) (List.replicate (m - p) a) := by
  intro p
  induction p with
  | zero =>
      intro m j
      rw [dropna_mask_zero]
      simp
  | succ p ih =>
      intro m j
      cases m with
      | zero =>
          rw [show idxFrom j (List.replicate 0 a) = [] from rfl, mask_nil,
            dropna_nil]
          simp [idxFrom]
      | succ m =>
          rw [idxFrom_replicate_succ, mask_cons_succ, dropna_cons_none, ih]
          congr 1
          · omega
          · congr 1
            omega

theorem vals_idxFrom (l : List ℚ) : ∀ j, vals (idxFrom j l) = l := by
  induction l with
  | nil => intro j; rfl
  | cons x xs ih =>
      intro j
      rw [show idxFrom j (x :: xs) = (j, x) :: idxFrom (j + 1) xs from rfl]
      rw [show vals ((j, x) :: idxFrom (j + 1) xs) =
        x :: vals (idxFrom (j + 1) xs) from rfl]
      rw [ih]

theorem zip_labels_idxFrom (a b : ℚ) :
    ∀ (m j : ℕ), (labels (idxFrom j (List.replicate m a))).zip
      (List.replicate m b) = idxFrom j (List.replicate m b) := by
  intro m
  induction m with
  | zero => intro j; rfl
  | succ m ih =>
      intro j
      rw [idxFrom_replicate_succ]
      rw [show labels ((j, a) :: idxFrom (j + 1) (List.replicate m a)) =
        j :: labels (idxFrom (j + 1) (List.replicate m a)) from rfl]
      rw [List.replicate_succ, List.zip_cons_cons, ih]
      rfl

theorem npWhereDiv_zero_replicate :
    ∀ m : ℕ, npWhereDiv (List.replicate m 0) (List.replicate m 0) =
      List.replicate m 100 := by
  intro m
  induction m with
  | zero => rfl
  | succ m ih =>
      rw [List.replicate_succ, npWhereDiv, List.zipWith_cons_cons]
      rw [show (if (0 : ℚ) = 0 then (100 : ℚ) else 0 / 0) = 100 from if_pos rfl]
      rw [show List.zipWith (fun gv lv => if lv = 0 then (100 : ℚ) else gv / lv)
        (List.replicate m 0) (List.replicate m 0) =
          npWhereDiv (List.replicate m 0) (List.replicate m 0) from rfl]
      rw [ih, List.replicate_succ]

theorem lookupIdx_idxFrom_replicate (a : ℚ) :
    ∀ (m j i : ℕ), lookupIdx i (idxFrom j (List.replicate m a)) =
      if j ≤ i ∧ i < j + m then some a else none := by
  intro m
  induction m with
  | zero =>
      intro j i
      rw [show idxFrom j (List.replicate 0 a) = [] from rfl]
      rw [show lookupIdx i ([] : Series) = none from rfl]
      rw [if_neg (by omega)]
  | succ m ih =>
      intro j i
      rw [idxFrom_replicate_succ]
      rw [show lookupIdx i ((j, a) :: idxFrom (j + 1) (List.replicate m a)) =
        if j = i then some a else lookupIdx i (idxFrom (j + 1) (List.replicate m a))
        from rfl]
      by_cases hj : j = i
      · rw [if_pos hj, if_pos (by omega)]
      · rw [if_neg hj, ih (j + 1) i]
        by_cases hc : j + 1 ≤ i ∧ i < j + 1 + m
        · rw [if_pos hc, if_pos (by omega)]
        · rw [if_neg hc, if_neg (by omega)]

theorem length_dropna_diffAux (s : Series) :
    ∀ prev : ℚ, (dropna (diffAux prev s)).length = s.length := by
  induction s with
  | nil => intro prev; rfl
  | cons q xs ih =>
      obtain ⟨i, x⟩ := q
      intro prev
      rw [show diffAux prev ((i, x) :: xs) =
        (i, some (x - prev)) :: diffAux x xs from rfl]
      rw [dropna_cons_some, List.length_cons, List.length_cons, ih x]

theorem length_deltaSeries (data : DataFrame) :
    (deltaSeries data).length = data.close.length - 1 := by
  rcases data with ⟨close, rsi⟩
  cases close with
  | nil => rfl
  | cons c rest =>
      show (dropna (diff1 (idxFrom 0 (c :: rest)))).length = (c :: rest).length - 1
      rw [show diff1 (idxFrom 0 (c :: rest)) =
        (0, none) :: diffAux c (idxFrom 1 rest) from rfl]
      rw [dropna_cons_none, length_dropna_diffAux, length_idxFrom]
      simp

theorem mask_mem_none (m : ℕ) (s : Series) (hle : s.length ≤ m) :
    ∀ p ∈ mask m s, p.2 = none := by
  induction s generalizing m with
  | nil => intro p hp; rw [mask_nil] at hp; cases hp
  | cons q xs ih =>
      obtain ⟨i, x⟩ := q
      cases m with
      | zero => simp at hle
      | succ m =>
          rw [mask_cons_succ]
          intro p hp
          rcases List.mem_cons.mp hp with h | h
          · rw [h]
          · exact ih m (by simpa using hle) p h

theorem locAssign_nil (data : DataFrame) (hfresh : data.rsi = none) :
    locAssign data [] =
      ⟨data.close, some (List.replicate data.close.length none)⟩ := by
  have hcol : ∀ i ∈ List.range data.close.length,
      (match lookupIdx i ([] : Series) with
       | some w => some w
       | none => (data.rsi.getD
           (List.replicate data.close.length none)).getD i none) = (none : Option ℚ) := by
    intro i _
    rw [hfresh]
    simp only [lookupIdx, Option.getD]
    exact getD_replicate_none _ _
  simp only [locAssign]
  rw [map_const_replicate _ hcol, List.length_range]

/-- The last RSI entry of the frame after the `loc` assignment is exactly
the label lookup of the last row in the assigned series (NaN when the last
row is not among the assigned labels). -/
theorem lastRsi_locAssign (df : DataFrame) (s : Series) (hfresh : df.rsi = none)
    (m : ℕ) (hm : df.close.length = m + 1) :
    lastRsi (locAssign df s) = lookupIdx m s := by
  rw [lastRsi]
  rw [show (locAssign df s).rsi =
    some ((List.range df.close.length).map fun i =>
      match lookupIdx i s with
      | some w => some w
      | none => (df.rsi.getD
          (List.replicate df.close.length none)).getD i none) from rfl]
  rw [Option.getD_some, hm, List.range_succ, List.map_append, List.map_cons,
    List.map_nil, List.getLast?_concat]
  rw [hfresh]
  cases hl : lookupIdx m s with
  | none => simp [hl, Option.join, getD_replicate_none]
  | some v => simp [hl, Option.join]

/-- C4: on a constant price series of at least 20 steps with period 14 the
aligned average gain and average loss are 0 at every aligned position
(including the last), RS saturates at 100 everywhere by the zero-division
convention, the last RSI value is exactly 10000/101 (approximately
99.0099), and the classification is OVERBOUGHT, not UNDETERMINED. -/
theorem claim_C4_flat_overbought (c : ℚ) (n : ℕ) (hn : 20 ≤ n) :
    alignedGain ⟨List.replicate n c, none⟩ 14 =
      idxFrom 14 (List.replicate (n - 14) 0) ∧
    alignedLoss ⟨List.replicate n c, none⟩ 14 =
      idxFrom 14 (List.replicate (n - 14) 0) ∧
    rsSeries ⟨List.replicate n c, none⟩ 14 =
      idxFrom 14 (List.replicate (n - 14) 100) ∧
    ∃ out, calculate_rsi ⟨List.replicate n c, none⟩ 14 = .ok out ∧
      lastRsi out = some (10000 / 101) ∧
      classify (lastRsi out) = .overbought := by
  have hd : deltaSeries ⟨List.replicate n c, none⟩ =
      idxFrom 1 (List.replicate (n - 1) 0) :=
    deltaSeries_replicate c n (by omega)
  have hg : gainSeries ⟨List.replicate n c, none⟩ =
      idxFrom 1 (List.replicate (n - 1) 0) := by
    rw [gainSeries, hd, mapVals_idxFrom_replicate]
    norm_num
  have hl : lossSeries ⟨List.replicate n c, none⟩ =
      idxFrom 1 (List.replicate (n - 1) 0) := by
    rw [lossSeries, hd, mapVals_idxFrom_replicate]
    norm_num
  have habs : mapVals abs (lossSeries ⟨List.replicate n c, none⟩) =
      idxFrom 1 (List.replicate (n - 1) 0) := by
    rw [hl, mapVals_idxFrom_replicate, abs_zero]
  have hone : ((14 : ℤ) - 1).toNat = 13 := by omega
  have htwo : 1 + min 13 (n - 1) = 14 := by omega
  have hthree : n - 1 - 13 = n - 14 := by omega
  have hag : alignedGain ⟨List.replicate n c, none⟩ 14 =
      idxFrom 14 (List.replicate (n - 14) 0) := by
    rw [alignedGain, avgGainSeries, ewmRaw, hg, hone, ewmaAux_zero_replicate,
      dropna_mask_idxFrom_replicate, htwo, hthree]
  have hal : alignedLoss ⟨List.replicate n c, none⟩ 14 =
      idxFrom 14 (List.replicate (n - 14) 0) := by
    rw [alignedLoss, avgLossSeries, ewmRaw, habs, hone, ewmaAux_zero_replicate,
      dropna_mask_idxFrom_replicate, htwo, hthree]
  have hrs : rsSeries ⟨List.replicate n c, none⟩ 14 =
      idxFrom 14 (List.replicate (n - 14) 100) := by
    rw [rsSeries, hag, hal, vals_idxFrom, npWhereDiv_zero_replicate,
      zip_labels_idxFrom]
  have hrsi : rsiSeries ⟨List.replicate n c, none⟩ 14 =
      idxFrom 14 (List.replicate (n - 14) (10000 / 101)) := by
    rw [rsiSeries, hrs, mapVals_idxFrom_replicate,
      show (100 : ℚ) - 100 / (1 + 100) = 10000 / 101 by norm_num]
  have hok := calculate_rsi_ok ⟨List.replicate n c, none⟩ 14 (by norm_num)
  have hlen : (⟨List.replicate n c, none⟩ : DataFrame).close.length =
      (n - 1) + 1 := by
    simp only [List.length_replicate]
    omega
  have hlast : lastRsi (locAssign ⟨List.replicate n c, none⟩
      (rsiSeries ⟨List.replicate n c, none⟩ 14)) = some (10000 / 101) := by
    rw [lastRsi_locAssign _ _ rfl (n - 1) hlen, hrsi,
      lookupIdx_idxFrom_replicate, if_pos ⟨by omega, by omega⟩]
  refine ⟨hag, hal, hrs, _, hok, hlast, ?_⟩
  rw [hlast]
  norm_num [classify]

/-- Witness for C4 at the constant series of 20 closes equal to 5. -/
theorem claim_C4_witness :
    20 ≤ 20 ∧
    (∃ out, calculate_rsi ⟨List.replicate 20 (5 : ℚ), none⟩ 14 = .ok out ∧
      lastRsi out = some (10000 / 101) ∧
      classify (lastRsi out) = .overbought) := by
  have h := claim_C4_flat_overbought 5 20 (by norm_num)
  exact ⟨by norm_num, h.2.2.2⟩

/-- C6: for every non-empty price series shorter than the period, the
smoothing stage yields an all-NaN average-gain and average-loss series
without raising any error, the returned frame carries an entirely
undefined RSI column, and the final classification is UNDETERMINED. -/
theorem claim_C6_short_history (data : DataFrame) (period : ℤ)
    (hp : 1 ≤ period) (hn : (data.close.length : ℤ) < period)
    (hne : 1 ≤ data.close.length) (hfresh : data.rsi = none) :
    (∀ p ∈ avgGainSeries data period, p.2 = none) ∧
    (∀ p ∈ avgLossSeries data period, p.2 = none) ∧
    calculate_rsi data period =
      .ok ⟨data.close, some (List.replicate data.close.length none)⟩ ∧
    classify (lastRsi ⟨data.close,
      some (List.replicate data.close.length none)⟩) = .undetermined := by
  have hdl : (deltaSeries data).length = data.close.length - 1 :=
    length_deltaSeries data
  have hlenG : (gainSeries data).length ≤ ((period : ℤ) - 1).toNat := by
    rw [gainSeries, length_mapVals, hdl]
    omega
  have hlenL : (mapVals abs (lossSeries data)).length ≤ ((period : ℤ) - 1).toNat := by
    rw [length_mapVals, lossSeries, length_mapVals, hdl]
    omega
  have hmem1 : ∀ p ∈ avgGainSeries data period, p.2 = none := by
    intro p hp2
    exact mask_mem_none _ _ (by rw [length_ewmaAux]; exact hlenG) p hp2
  have hmem2 : ∀ p ∈ avgLossSeries data period, p.2 = none := by
    intro p hp2
    exact mask_mem_none _ _ (by rw [length_ewmaAux]; exact hlenL) p hp2
  have hag : alignedGain data period = [] :=
    List.eq_nil_of_length_eq_zero (by rw [length_alignedGain, hdl]; omega)
  have hal : alignedLoss data period = [] :=
    List.eq_nil_of_length_eq_zero (by rw [length_alignedLoss, hdl]; omega)
  have hrsi : rsiSeries data period = [] := by
    rw [rsiSeries, rsSeries, hag, hal]
    rfl
  have hok : calculate_rsi data period =
      .ok ⟨data.close, some (List.replicate data.close.length none)⟩ := by
    rw [calculate_rsi_ok data period hp, hrsi, locAssign_nil data hfresh]
  have hm : data.close.length = (data.close.length - 1) + 1 := by omega
  have hlast : lastRsi ⟨data.close,
      some (List.replicate data.close.length none)⟩ = none := by
    rw [← locAssign_nil data hfresh,
      lastRsi_locAssign data [] hfresh (data.close.length - 1) hm]
    rfl
  exact ⟨hmem1, hmem2, hok, by rw [hlast]; rfl⟩

/-- Witness for C6 on the three-row table [1, 2, 3] with period 14. -/
theorem claim_C6_witness :
    calculate_rsi ⟨[1, 2, 3], none⟩ 14 =
      .ok ⟨[1, 2, 3], some (List.replicate 3 none)⟩ ∧
    classify (lastRsi ⟨[1, 2, 3], some (List.replicate 3 none)⟩) =
      .undetermined := by
  have h := claim_C6_short_history ⟨[1, 2, 3], none⟩ 14 (by norm_num)
    (by norm_num) (by norm_num) rfl
  exact ⟨h.2.2.1, h.2.2.2⟩

end InteractiveRsi
